import Mathlib

/-!
Verification of the heredity inference engine (src/heredity.py).

The program performs exact Bayesian inference over a pedigree: it enumerates
every trait subset and every 3-way gene-count partition of the population,
scores each full assignment with `joint_probability`, accumulates per-person
marginals with `update`, and finally normalizes them.  Probabilities are
embedded as exact rationals (ℚ); the Python floats denote these same
constants.  Populations are association lists keyed by person name, mirroring
the insertion-ordered Python dict.
-/

namespace Heredity

/-- Decidable equality for `Except`, so engine results can be checked on
concrete inputs. -/
instance {ε α : Type} [DecidableEq ε] [DecidableEq α] : DecidableEq (Except ε α) := fun a b =>
  match a, b with
  | Except.ok x, Except.ok y =>
    if h : x = y then Decidable.isTrue (congrArg Except.ok h)
    else Decidable.isFalse fun hc => h (Except.ok.inj hc)
  | Except.error x, Except.error y =>
    if h : x = y then Decidable.isTrue (congrArg Except.error h)
    else Decidable.isFalse fun hc => h (Except.error.inj hc)
  | Except.ok _, Except.error _ => Decidable.isFalse fun hc => Except.noConfusion hc
  | Except.error _, Except.ok _ => Decidable.isFalse fun hc => Except.noConfusion hc

/-- The fixed parameter tables of the module-level `PROBS` dictionary:
founder gene prior, trait-given-gene emission table, mutation rate. -/
structure Params where
  gene2 : ℚ
  gene1 : ℚ
  gene0 : ℚ
  trait2T : ℚ
  trait2F : ℚ
  trait1T : ℚ
  trait1F : ℚ
  trait0T : ℚ
  trait0F : ℚ
  mutation : ℚ
deriving DecidableEq

/-- `PROBS` from src/heredity.py lines 7-20. -/
def PROBS : Params :=
  ⟨1/100, 3/100, 96/100, 65/100, 35/100, 56/100, 44/100, 1/100, 99/100, 1/100⟩

/-- Lookup in `PROBS["gene"]` (a key outside {0,1,2} is never used by the
program; the final clause is junk standing for Python's KeyError). -/
def geneTable (P : Params) (g : ℕ) : ℚ :=
  if g = 2 then P.gene2 else if g = 1 then P.gene1 else if g = 0 then P.gene0 else 0

/-- Lookup in `PROBS["trait"]`. -/
def traitTable (P : Params) (g : ℕ) (t : Bool) : ℚ :=
  if g = 2 then (if t then P.trait2T else P.trait2F)
  else if g = 1 then (if t then P.trait1T else P.trait1F)
  else if g = 0 then (if t then P.trait0T else P.trait0F)
  else 0

/-- One row of the loaded population dictionary: name, optional parents,
optional observed trait. -/
structure Person where
  name : String
  mother : Option String
  father : Option String
  trait : Option Bool
deriving DecidableEq

/-- `powerset` (lines 96-106): all subsets of `s`, produced as the
concatenation over r = 0..n of all size-r combinations. -/
def powerset {α : Type} (s : List α) : List (List α) :=
  (List.range (s.length + 1)).flatMap fun r => List.sublistsLen r s

/-- Python set difference `names - one_gene` used at line 51. -/
def setDiff (names one_gene : List String) : List String :=
  names.filter fun n => decide (n ∉ one_gene)

/-- `get_gene_count` (lines 203-217).  The argument may be `None` (an absent
parent): `None` is a member of no name set, so the count is 0. -/
def get_gene_count (person : Option String) (one_gene two_genes : List String) : ℕ :=
  if (match person with | none => false | some n => decide (n ∈ one_gene)) then 1
  else if (match person with | none => false | some n => decide (n ∈ two_genes)) then 2
  else 0

/-- `_get_pass_probability` (lines 132-145). -/
def get_pass_probability (P : Params) (gene_count : ℕ) : ℚ :=
  if gene_count = 0 then P.mutation
  else if gene_count = 1 then (1/2) * (1 - P.mutation) + (1/2) * P.mutation
  else 1 - P.mutation

/-- The child gene-count expression of lines 167-174, as a function of the
two parents' pass probabilities. -/
def childGeneProbability (pm pf : ℚ) (gene : ℕ) : ℚ :=
  if gene = 0 then (1 - pm) * (1 - pf)
  else if gene = 1 then (1 - pm) * pf + (1 - pf) * pm
  else pm * pf

/-- `_get_gene_probability` (lines 121-174): founder prior when both parents
are absent, otherwise the transmission formula from the parents' pass
probabilities. -/
def get_gene_probability (P : Params) (q : Person) (one_gene two_genes : List String)
    (gene : ℕ) : ℚ :=
  if q.mother = none ∧ q.father = none then geneTable P gene
  else
    childGeneProbability
      (get_pass_probability P (get_gene_count q.mother one_gene two_genes))
      (get_pass_probability P (get_gene_count q.father one_gene two_genes))
      gene

/-- `joint_probability` (lines 109-200): per-person factors collected in a
list and multiplied with `reduce(mul, probabilities, 1)` (a left fold). -/
def joint_probability (P : Params) (people : List Person)
    (one_gene two_genes have_trait : List String) : ℚ :=
  (people.map fun q =>
    let gene_count := get_gene_count (some q.name) one_gene two_genes
    let gene_probability := get_gene_probability P q one_gene two_genes gene_count
    let trait_probability := traitTable P gene_count (decide (q.name ∈ have_trait))
    gene_probability * trait_probability).foldl (· * ·) 1

/-- One person's pair of accumulated distributions: three gene-count buckets
and two trait buckets. -/
structure PDist where
  gene0 : ℚ
  gene1 : ℚ
  gene2 : ℚ
  traitT : ℚ
  traitF : ℚ
deriving DecidableEq

/-- The all-zero initial entry of the `probabilities` dictionary (line 31). -/
def PDist.zero : PDist := ⟨0, 0, 0, 0, 0⟩

/-- Add `p` to the gene bucket selected by the gene count. -/
def PDist.addGene (d : PDist) (g : ℕ) (p : ℚ) : PDist :=
  if g = 0 then ⟨d.gene0 + p, d.gene1, d.gene2, d.traitT, d.traitF⟩
  else if g = 1 then ⟨d.gene0, d.gene1 + p, d.gene2, d.traitT, d.traitF⟩
  else ⟨d.gene0, d.gene1, d.gene2 + p, d.traitT, d.traitF⟩

/-- Add `p` to the trait bucket selected by trait membership. -/
def PDist.addTrait (d : PDist) (t : Bool) (p : ℚ) : PDist :=
  if t then ⟨d.gene0, d.gene1, d.gene2, d.traitT + p, d.traitF⟩
  else ⟨d.gene0, d.gene1, d.gene2, d.traitT, d.traitF + p⟩

/-- Sum of the gene-count buckets. -/
def PDist.geneTotal (d : PDist) : ℚ := d.gene0 + d.gene1 + d.gene2

/-- Sum of the trait buckets. -/
def PDist.traitTotal (d : PDist) : ℚ := d.traitT + d.traitF

/-- The `probabilities` dictionary created at lines 30-33. -/
def initProbabilities (people : List Person) : List (String × PDist) :=
  people.map fun q => (q.name, PDist.zero)

/-- `update` (lines 220-231): add the joint probability `p` to every
person's matching gene bucket and matching trait bucket. -/
def update (probabilities : List (String × PDist))
    (one_gene two_genes have_trait : List String) (p : ℚ) : List (String × PDist) :=
  probabilities.map fun e =>
    (e.1,
     (e.2.addGene (get_gene_count (some e.1) one_gene two_genes) p).addTrait
       (decide (e.1 ∈ have_trait)) p)

/-- The evidence filter of lines 39-45: some person has an observed trait
that disagrees with membership in `have_trait`. -/
def fails_evidence (people : List Person) (have_trait : List String) : Bool :=
  people.any fun q =>
    match q.trait with
    | none => false
    | some b => b != decide (q.name ∈ have_trait)

/-- The accumulation loop of `main` (lines 35-54): for every evidence-
consistent trait subset and every disjoint (one_gene, two_genes) pair, add
the assignment's joint probability into the per-person buckets. -/
def accumulate (P : Params) (people : List Person) : List (String × PDist) :=
  let names := people.map Person.name
  (powerset names).foldl
    (fun acc have_trait =>
      if fails_evidence people have_trait then acc
      else
        (powerset names).foldl
          (fun acc2 one_gene =>
            (powerset (setDiff names one_gene)).foldl
              (fun acc3 two_genes =>
                update acc3 one_gene two_genes have_trait
                  (joint_probability P people one_gene two_genes have_trait))
              acc2)
          acc)
    (initProbabilities people)

/-- `normalize` as it stands in the source (lines 234-239): the body is
`raise NotImplementedError`, unconditionally. -/
def normalize (probabilities : List (String × PDist)) :
    Except String (List (String × PDist)) :=
  Except.error ("NotImplementedError")

/-- Modelled from the spec: the body of `normalize` is missing from the
source (a `NotImplementedError` stub).  Per §4.4, each of a person's two
distributions is divided bucket-wise by its total, and a zero total is
reported as a distinct failure instead of dividing. -/
def normalizeDist (d : PDist) : Except String PDist :=
  if d.geneTotal = 0 then Except.error ("zero total in gene distribution")
  else if d.traitTotal = 0 then Except.error ("zero total in trait distribution")
  else
    Except.ok
      ⟨d.gene0 / d.geneTotal, d.gene1 / d.geneTotal, d.gene2 / d.geneTotal,
       d.traitT / d.traitTotal, d.traitF / d.traitTotal⟩

/-- Modelled from the spec: `normalize` applied to every person's entry,
propagating the first zero-total failure. -/
def normalizeSpec : List (String × PDist) → Except String (List (String × PDist))
  | [] => Except.ok []
  | e :: rest =>
    match normalizeDist e.2 with
    | Except.error msg => Except.error msg
    | Except.ok d =>
      match normalizeSpec rest with
      | Except.error msg => Except.error msg
      | Except.ok rest2 => Except.ok ((e.1, d) :: rest2)

/-- The inference engine of `main` (lines 29-57): accumulate, then
normalize (normalization modelled from the spec, see `normalizeSpec`). -/
def run_engine (people : List Person) : Except String (List (String × PDist)) :=
  normalizeSpec (accumulate PROBS people)

/-- One run of the engine with the module-level parameter tables threaded
explicitly as state: the source only ever reads `PROBS`, so the state
component is returned unchanged. -/
def run_once (P : Params) (people : List Person) :
    Except String (List (String × PDist)) × Params :=
  (normalizeSpec (accumulate P people), P)

/-- One CSV row, all four fields as raw strings. -/
structure Row where
  name : String
  mother : String
  father : String
  trait : String
deriving DecidableEq

/-- Field conversion of lines 81-92: empty parent strings become `none`,
the trait string "1"/"0"/other becomes true/false/`none`. -/
def rowToPerson (r : Row) : Person :=
  ⟨r.name,
   if r.mother = "" then none else some r.mother,
   if r.father = "" then none else some r.father,
   if r.trait = "1" then some true else if r.trait = "0" then some false else none⟩

/-- Python dict assignment `data[name] = ...`: an existing key keeps its
position and gets the new value; a new key is appended. -/
def dictInsert (data : List Person) (p : Person) : List Person :=
  if data.any fun q => q.name = p.name then
    data.map fun q => if q.name = p.name then p else q
  else data ++ [p]

/-- `load_data` (lines 69-93): fold the rows into the population dict.
No validation of any kind is performed. -/
def load_data (rows : List Row) : List Person :=
  rows.foldl (fun data r => dictInsert data (rowToPerson r)) []

/-- First entry with the given name, or the all-zero distribution. -/
def lookupDist : List (String × PDist) → String → PDist
  | [], _ => PDist.zero
  | e :: rest, x => if e.1 = x then e.2 else lookupDist rest x

/-- Select a trait bucket. -/
def traitBucket (d : PDist) (t : Bool) : ℚ :=
  if t then d.traitT else d.traitF

/-- Defined from the spec's words (§4.2), for comparison with
`joint_probability`: one person's gene-count factor, with the founder prior
written as the spec's literal table P(2)=0.01, P(1)=0.03, P(0)=0.96. -/
def specGeneProbability (q : Person) (one_gene two_genes : List String) : ℚ :=
  let g := get_gene_count (some q.name) one_gene two_genes
  if q.mother = none ∧ q.father = none then
    if g = 2 then 1/100 else if g = 1 then 3/100 else 96/100
  else
    childGeneProbability
      (get_pass_probability PROBS (get_gene_count q.mother one_gene two_genes))
      (get_pass_probability PROBS (get_gene_count q.father one_gene two_genes)) g

/-- Defined from the spec's words (§4.2): one person's trait-given-gene
emission factor. -/
def specTraitProbability (q : Person) (one_gene two_genes have_trait : List String) : ℚ :=
  traitTable PROBS (get_gene_count (some q.name) one_gene two_genes)
    (decide (q.name ∈ have_trait))

/-! ## Theorems -/

lemma get_gene_count_cases (p : Option String) (og tg : List String) :
    get_gene_count p og tg = 0 ∨ get_gene_count p og tg = 1 ∨ get_gene_count p og tg = 2 := by
  unfold get_gene_count
  split_ifs <;> simp

lemma geneTable_eq_spec (g : ℕ) (h : g = 0 ∨ g = 1 ∨ g = 2) :
    geneTable PROBS g = if g = 2 then 1/100 else if g = 1 then 3/100 else 96/100 := by
  rcases h with h | h | h <;> subst h <;> norm_num [geneTable, PROBS]

lemma pass_probability_bounds (g : ℕ) :
    0 ≤ get_pass_probability PROBS g ∧ get_pass_probability PROBS g ≤ 1 := by
  unfold get_pass_probability
  split_ifs <;> constructor <;> norm_num [PROBS]

lemma childGeneProbability_nonneg {pm pf : ℚ} (g : ℕ)
    (h1 : 0 ≤ pm) (h2 : pm ≤ 1) (h3 : 0 ≤ pf) (h4 : pf ≤ 1) :
    0 ≤ childGeneProbability pm pf g := by
  unfold childGeneProbability
  split_ifs
  · exact mul_nonneg (by linarith) (by linarith)
  · have a1 : 0 ≤ (1 - pm) * pf := mul_nonneg (by linarith) h3
    have a2 : 0 ≤ (1 - pf) * pm := mul_nonneg (by linarith) h1
    linarith
  · exact mul_nonneg h1 h3

lemma geneTable_nonneg (g : ℕ) : 0 ≤ geneTable PROBS g := by
  unfold geneTable
  split_ifs <;> norm_num [PROBS]

lemma traitTable_nonneg (g : ℕ) (b : Bool) : 0 ≤ traitTable PROBS g b := by
  unfold traitTable
  split_ifs <;> norm_num [PROBS]

lemma get_gene_probability_nonneg (q : Person) (og tg : List String) (g : ℕ) :
    0 ≤ get_gene_probability PROBS q og tg g := by
  unfold get_gene_probability
  split_ifs
  · exact geneTable_nonneg g
  · exact childGeneProbability_nonneg g
      (pass_probability_bounds _).1 (pass_probability_bounds _).2
      (pass_probability_bounds _).1 (pass_probability_bounds _).2

lemma gene_probability_eq_spec (q : Person) (og tg : List String) :
    get_gene_probability PROBS q og tg (get_gene_count (some q.name) og tg) =
      specGeneProbability q og tg := by
  simp only [get_gene_probability, specGeneProbability]
  by_cases h : q.mother = none ∧ q.father = none
  · simp only [if_pos h]
    exact geneTable_eq_spec _ (get_gene_count_cases _ _ _)
  · simp only [if_neg h]

/-- C3: `joint_probability` returns a non-negative number equal to the
product, over all people, of the person's gene-count probability (the fixed
founder prior for founders, the parental transmission formula otherwise)
times the trait-given-gene-count emission probability. -/
theorem joint_probability_product :
    ∀ (people : List Person) (one_gene two_genes have_trait : List String),
      0 ≤ joint_probability PROBS people one_gene two_genes have_trait ∧
      joint_probability PROBS people one_gene two_genes have_trait =
        (people.map fun q =>
          specGeneProbability q one_gene two_genes *
            specTraitProbability q one_gene two_genes have_trait).prod := by
  intro people og tg ht
  have heq : joint_probability PROBS people og tg ht =
      (people.map fun q =>
        specGeneProbability q og tg * specTraitProbability q og tg ht).prod := by
    unfold joint_probability
    rw [← List.prod_eq_foldl]
    congr 1
    apply List.map_congr_left
    intro q hq
    show get_gene_probability PROBS q og tg (get_gene_count (some q.name) og tg) *
        traitTable PROBS (get_gene_count (some q.name) og tg) (decide (q.name ∈ ht)) =
      specGeneProbability q og tg * specTraitProbability q og tg ht
    rw [gene_probability_eq_spec]
    rfl
  refine ⟨?_, heq⟩
  rw [heq]
  apply List.prod_nonneg
  intro x hx
  rcases List.mem_map.1 hx with ⟨q, hq, rfl⟩
  refine mul_nonneg ?_ (traitTable_nonneg _ _)
  rw [← gene_probability_eq_spec]
  exact get_gene_probability_nonneg q og tg _

/-- The per-person relation between an accumulated entry and its normalized
entry: same name, both distributions now summing to exactly 1, each bucket
still standing in its original ratio to the whole (bucket' · total =
bucket). -/
def normalizedEntryRel (e e2 : String × PDist) : Prop :=
  e2.1 = e.1 ∧ e2.2.geneTotal = 1 ∧ e2.2.traitTotal = 1 ∧
  e2.2.gene0 * e.2.geneTotal = e.2.gene0 ∧
  e2.2.gene1 * e.2.geneTotal = e.2.gene1 ∧
  e2.2.gene2 * e.2.geneTotal = e.2.gene2 ∧
  e2.2.traitT * e.2.traitTotal = e.2.traitT ∧
  e2.2.traitF * e.2.traitTotal = e.2.traitF

lemma normalizeDist_ok_rel {d d2 : PDist} (h : normalizeDist d = Except.ok d2) :
    ∀ n : String, normalizedEntryRel (n, d) (n, d2) := by
  intro n
  unfold normalizeDist at h
  by_cases hg : d.geneTotal = 0
  · rw [if_pos hg] at h
    exact absurd h (by simp)
  by_cases ht : d.traitTotal = 0
  · rw [if_neg hg, if_pos ht] at h
    exact absurd h (by simp)
  rw [if_neg hg, if_neg ht] at h
  injection h with h
  subst h
  have hg2 : d.gene0 + d.gene1 + d.gene2 ≠ 0 := by simpa [PDist.geneTotal] using hg
  have ht2 : d.traitT + d.traitF ≠ 0 := by simpa [PDist.traitTotal] using ht
  refine ⟨rfl, ?_, ?_, ?_, ?_, ?_, ?_, ?_⟩ <;>
    simp only [PDist.geneTotal, PDist.traitTotal] <;>
    first
      | rw [div_add_div_same, div_add_div_same, div_self hg2]
      | rw [div_add_div_same, div_self ht2]
      | exact div_mul_cancel₀ _ hg2
      | exact div_mul_cancel₀ _ ht2

lemma normalizeDist_error_of_zero {d : PDist}
    (h : d.geneTotal = 0 ∨ d.traitTotal = 0) :
    ∃ msg, normalizeDist d = Except.error msg := by
  unfold normalizeDist
  by_cases hg : d.geneTotal = 0
  · exact ⟨_, by rw [if_pos hg]⟩
  · rcases h with h | h
    · exact absurd h hg
    · exact ⟨_, by rw [if_neg hg, if_pos h]⟩

lemma normalizeDist_ok_of_nonzero {d : PDist}
    (hg : d.geneTotal ≠ 0) (ht : d.traitTotal ≠ 0) :
    ∃ d2, normalizeDist d = Except.ok d2 := by
  unfold normalizeDist
  rw [if_neg hg, if_neg ht]
  exact ⟨_, rfl⟩

lemma normalizeSpec_ok_forall2 :
    ∀ (probs res : List (String × PDist)), normalizeSpec probs = Except.ok res →
      List.Forall₂ normalizedEntryRel probs res := by
  intro probs
  induction probs with
  | nil =>
    intro res h
    unfold normalizeSpec at h
    injection h with h
    subst h
    exact List.Forall₂.nil
  | cons e rest ih =>
    intro res h
    unfold normalizeSpec at h
    cases hd : normalizeDist e.2 with
    | error msg => rw [hd] at h; exact absurd h (by simp)
    | ok d2 =>
      rw [hd] at h
      cases hr : normalizeSpec rest with
      | error msg => rw [hr] at h; exact absurd h (by simp)
      | ok rest2 =>
        rw [hr] at h
        injection h with h
        subst h
        exact List.Forall₂.cons
          (by have := normalizeDist_ok_rel hd e.1; exact this) (ih rest2 hr)

lemma normalizeSpec_error_of_zero :
    ∀ probs : List (String × PDist),
      (∃ e ∈ probs, e.2.geneTotal = 0 ∨ e.2.traitTotal = 0) →
      ∃ msg, normalizeSpec probs = Except.error msg := by
  intro probs
  induction probs with
  | nil => rintro ⟨e, he, _⟩; exact absurd he (List.not_mem_nil e)
  | cons e rest ih =>
    rintro ⟨e0, he0, hz⟩
    rcases List.mem_cons.1 he0 with rfl | hmem
    · rcases normalizeDist_error_of_zero hz with ⟨msg, hmsg⟩
      exact ⟨msg, by unfold normalizeSpec; rw [hmsg]⟩
    · cases hd : normalizeDist e.2 with
      | error msg => exact ⟨msg, by unfold normalizeSpec; rw [hd]⟩
      | ok d2 =>
        rcases ih ⟨e0, hmem, hz⟩ with ⟨msg, hmsg⟩
        exact ⟨msg, by unfold normalizeSpec; rw [hd, hmsg]⟩

lemma normalizeSpec_ok_of_nonzero :
    ∀ probs : List (String × PDist),
      (∀ e ∈ probs, e.2.geneTotal ≠ 0 ∧ e.2.traitTotal ≠ 0) →
      ∃ res, normalizeSpec probs = Except.ok res := by
  intro probs
  induction probs with
  | nil => intro _; exact ⟨[], rfl⟩
  | cons e rest ih =>
    intro h
    rcases normalizeDist_ok_of_nonzero (h e (List.mem_cons_self e rest)).1
        (h e (List.mem_cons_self e rest)).2 with ⟨d2, hd⟩
    rcases ih (fun x hx => h x (List.mem_cons_of_mem e hx)) with ⟨rest2, hr⟩
    exact ⟨(e.1, d2) :: rest2, by unfold normalizeSpec; rw [hd, hr]⟩

/-- C1: the (spec-modelled) normalization divides, for every person and each
of their two distributions, every bucket by the distribution's total, so
that each result distribution sums to exactly 1 with ratios preserved; a
zero total in any distribution is reported as a failure, and normalization
succeeds exactly when every total is nonzero. -/
theorem normalize_contract :
    ∀ probs : List (String × PDist),
      (∀ res, normalizeSpec probs = Except.ok res →
        List.Forall₂ normalizedEntryRel probs res) ∧
      ((∃ e ∈ probs, e.2.geneTotal = 0 ∨ e.2.traitTotal = 0) →
        ∃ msg, normalizeSpec probs = Except.error msg) ∧
      ((∀ e ∈ probs, e.2.geneTotal ≠ 0 ∧ e.2.traitTotal ≠ 0) →
        ∃ res, normalizeSpec probs = Except.ok res) := by
  intro probs
  exact ⟨fun res h => normalizeSpec_ok_forall2 probs res h,
    normalizeSpec_error_of_zero probs, normalizeSpec_ok_of_nonzero probs⟩

/-- Witness for C1: on a concrete nonzero-total entry normalization divides
through and succeeds; on an all-zero entry it reports a failure. -/
theorem normalize_contract_witness :
    List.Forall₂ normalizedEntryRel [("a", ⟨1, 1, 2, 3, 1⟩)]
      [("a", ⟨1/4, 1/4, 1/2, 3/4, 1/4⟩)] ∧
    (∃ msg, normalizeSpec [("b", PDist.zero)] = Except.error msg) := by
  constructor
  · exact (normalize_contract [("a", ⟨1, 1, 2, 3, 1⟩)]).1
      [("a", ⟨1/4, 1/4, 1/2, 3/4, 1/4⟩)]
      (by norm_num [normalizeSpec, normalizeDist, PDist.geneTotal, PDist.traitTotal])
  · exact (normalize_contract [("b", PDist.zero)]).2.1
      ⟨("b", PDist.zero), List.mem_singleton.2 rfl,
       Or.inl (by norm_num [PDist.geneTotal, PDist.zero])⟩

lemma mem_dictInsert {q p : Person} {acc : List Person} (h : q ∈ dictInsert acc p) :
    q ∈ acc ∨ q = p := by
  unfold dictInsert at h
  by_cases hc : (acc.any fun r => r.name = p.name) = true
  · rw [if_pos hc] at h
    rcases List.mem_map.1 h with ⟨r, hr, heq⟩
    by_cases hn : r.name = p.name
    · right
      rw [if_pos hn] at heq
      exact heq.symm
    · left
      rw [if_neg hn] at heq
      subst heq
      exact hr
  · rw [if_neg hc] at h
    rcases List.mem_append.1 h with h | h
    · exact Or.inl h
    · exact Or.inr (List.mem_singleton.1 h)

lemma namePresent_dictInsert {acc : List Person} {n : String} (p : Person)
    (h : ∃ q ∈ acc, q.name = n) : ∃ q ∈ dictInsert acc p, q.name = n := by
  rcases h with ⟨q, hq, hn⟩
  unfold dictInsert
  by_cases hc : (acc.any fun r => r.name = p.name) = true
  · rw [if_pos hc]
    refine ⟨if q.name = p.name then p else q, List.mem_map_of_mem _ hq, ?_⟩
    by_cases hn2 : q.name = p.name
    · rw [if_pos hn2, ← hn2]
      exact hn
    · rw [if_neg hn2]
      exact hn
  · rw [if_neg hc]
    exact ⟨q, List.mem_append_left _ hq, hn⟩

lemma namePresent_dictInsert_self (acc : List Person) (p : Person) :
    ∃ q ∈ dictInsert acc p, q.name = p.name := by
  unfold dictInsert
  by_cases hc : (acc.any fun r => r.name = p.name) = true
  · rw [if_pos hc]
    rcases List.any_eq_true.1 hc with ⟨r, hr, hrn⟩
    simp only [decide_eq_true_eq] at hrn
    refine ⟨if r.name = p.name then p else r, List.mem_map_of_mem _ hr, ?_⟩
    rw [if_pos hrn]
  · rw [if_neg hc]
    exact ⟨p, List.mem_append_right _ (List.mem_singleton.2 rfl), rfl⟩

lemma namePresent_foldl (rows : List Row) :
    ∀ (acc : List Person) (n : String), (∃ q ∈ acc, q.name = n) →
      ∃ q ∈ rows.foldl (fun d r => dictInsert d (rowToPerson r)) acc, q.name = n := by
  induction rows with
  | nil => intro acc n h; exact h
  | cons r rs ih =>
    intro acc n h
    exact ih _ n (namePresent_dictInsert _ h)

lemma load_data_covers (rows : List Row) :
    ∀ (acc : List Person) (r : Row), r ∈ rows →
      ∃ q ∈ rows.foldl (fun d r2 => dictInsert d (rowToPerson r2)) acc, q.name = r.name := by
  induction rows with
  | nil => intro acc r h; exact absurd h (List.not_mem_nil r)
  | cons r0 rs ih =>
    intro acc r h
    rcases List.mem_cons.1 h with rfl | h2
    · apply namePresent_foldl rs
      exact namePresent_dictInsert_self acc (rowToPerson r)
    · exact ih _ r h2

lemma load_data_from_rows (rows : List Row) :
    ∀ (acc : List Person) (q : Person),
      q ∈ rows.foldl (fun d r => dictInsert d (rowToPerson r)) acc →
      q ∈ acc ∨ ∃ r ∈ rows, rowToPerson r = q := by
  induction rows with
  | nil => intro acc q h; exact Or.inl h
  | cons r0 rs ih =>
    intro acc q h
    rcases ih _ q h with h2 | ⟨r, hr, hq⟩
    · rcases mem_dictInsert h2 with h3 | h3
      · exact Or.inl h3
      · exact Or.inr ⟨r0, List.mem_cons_self r0 rs, h3.symm⟩
    · exact Or.inr ⟨r, List.mem_cons_of_mem _ hr, hq⟩

/-- C8 (amended): `load_data` performs no structural validation and never
reports an error: for every list of rows — including rows whose parents
name no row of the file and repeated names — it returns a population with
an entry for every row's name, every entry converted from some input row
(later duplicates overwriting earlier ones). -/
theorem load_data_no_validation :
    ∀ rows : List Row,
      (∀ r ∈ rows, ∃ q ∈ load_data rows, q.name = r.name) ∧
      (∀ q ∈ load_data rows, ∃ r ∈ rows, rowToPerson r = q) := by
  intro rows
  constructor
  · intro r hr
    exact load_data_covers rows [] r hr
  · intro q hq
    rcases load_data_from_rows rows [] q hq with h | h
    · exact absurd h (List.not_mem_nil q)
    · exact h

/-- Witness for C8 (amended): on a concrete invalid file the population is
produced, with entries for "a" and "b" converted from the rows. -/
theorem load_data_no_validation_witness :
    (∃ q ∈ load_data [⟨"a", "ghost", "ghost2", ""⟩, ⟨"b", "", "", "1"⟩, ⟨"b", "", "", "0"⟩],
      q.name = "a") ∧
    (∀ q ∈ load_data [⟨"a", "ghost", "ghost2", ""⟩, ⟨"b", "", "", "1"⟩, ⟨"b", "", "", "0"⟩],
      ∃ r ∈ ([⟨"a", "ghost", "ghost2", ""⟩, ⟨"b", "", "", "1"⟩,
              ⟨"b", "", "", "0"⟩] : List Row), rowToPerson r = q) := by
  have h := load_data_no_validation
    [⟨"a", "ghost", "ghost2", ""⟩, ⟨"b", "", "", "1"⟩, ⟨"b", "", "", "0"⟩]
  exact ⟨h.1 ⟨"a", "ghost", "ghost2", ""⟩ (List.mem_cons_self _ _), h.2⟩

/-- C8 counterexample: a structurally invalid input — parents "ghost" and
"ghost2" name no row of the file, and the name "b" appears twice — is
loaded with no error at all: the duplicate row silently overwrites the
earlier one, the dangling parent references are stored as-is, and inference
then runs to completion on such a population. -/
theorem load_data_accepts_invalid :
    load_data [⟨"a", "ghost", "ghost2", ""⟩, ⟨"b", "", "", "1"⟩, ⟨"b", "", "", "0"⟩] =
      [⟨"a", some "ghost", some "ghost2", none⟩, ⟨"b", none, none, some false⟩] ∧
    run_engine (load_data [⟨"c", "ghost", "ghost2", ""⟩]) =
      Except.ok
        [("c", ⟨9801/10000, 99/5000, 1/10000, 10477/500000, 489523/500000⟩)] := by
  constructor
  · decide
  · have hl : load_data [⟨"c", "ghost", "ghost2", ""⟩] =
        [⟨"c", some "ghost", some "ghost2", none⟩] := by decide
    rw [hl]
    have h1 : (("ghost" : String) = "c") = False := by simp
    have h2 : (("ghost2" : String) = "c") = False := by simp
    have h3 : ((some "ghost" : Option String) = none ∧
        (some "ghost2" : Option String) = none) = False := by simp
    norm_num [h1, h2, h3, run_engine, accumulate, powerset, setDiff, initProbabilities, update,
      fails_evidence, joint_probability, get_gene_count, get_gene_probability,
      get_pass_probability, childGeneProbability, geneTable, traitTable, PROBS, PDist.zero,
      PDist.addGene, PDist.addTrait, List.sublistsLen, List.sublistsLenAux, List.range_succ,
      normalizeSpec, normalizeDist, PDist.geneTotal, PDist.traitTotal]

/-- C4: the pass probability derived from a parent gene count is the
mutation rate `m` for count 0, exactly 1/2 for count 1 (for any mutation
rate, since `0.5·(1−m) + 0.5·m` cancels symmetrically), and `1−m` for
count 2, with `m = 1/100`. -/
theorem pass_probability_values :
    get_pass_probability PROBS 0 = PROBS.mutation ∧
    (∀ P : Params, get_pass_probability P 1 = 1/2) ∧
    get_pass_probability PROBS 2 = 1 - PROBS.mutation ∧
    PROBS.mutation = 1/100 := by
  refine ⟨rfl, fun P => ?_, rfl, rfl⟩
  simp only [get_pass_probability]
  norm_num
  ring

/-- C5: for every pair of pass probabilities, the three child gene-count
probabilities computed at lines 167-174 sum to 1. -/
theorem child_gene_probabilities_sum_to_one :
    ∀ pm pf : ℚ,
      childGeneProbability pm pf 0 + childGeneProbability pm pf 1 +
        childGeneProbability pm pf 2 = 1 := by
  intro pm pf
  simp only [childGeneProbability]
  norm_num
  ring

/-- C2: for a one-person population whose only member is a founder with no
observed trait, the engine's final normalized gene marginal is exactly the
founder prior {0: 0.96, 1: 0.03, 2: 0.01} and the trait marginal is exactly
{true: 0.0329, false: 0.9671}. -/
theorem single_founder_marginals :
    run_engine [⟨"a", none, none, none⟩] =
      Except.ok [("a", ⟨96/100, 3/100, 1/100, 329/10000, 9671/10000⟩)] := by
  norm_num [run_engine, accumulate, powerset, setDiff, initProbabilities, update,
    fails_evidence, joint_probability, get_gene_count, get_gene_probability, geneTable,
    traitTable, PROBS, PDist.zero, PDist.addGene, PDist.addTrait, List.sublistsLen,
    List.sublistsLenAux, List.range_succ, normalizeSpec, normalizeDist, PDist.geneTotal,
    PDist.traitTotal]

/-- C9: running the engine twice on the same population, threading the
parameter tables (the only module-level state) through both runs, yields the
same result both times and leaves the state unchanged; at the program's
`PROBS` the threaded run computes exactly `run_engine`. -/
theorem engine_deterministic :
    ∀ (P : Params) (people : List Person),
      (run_once P people).2 = P ∧
      (run_once ((run_once P people).2) people).1 = (run_once P people).1 ∧
      (run_once PROBS people).1 = run_engine people := by
  intro P people
  exact ⟨rfl, rfl, rfl⟩

lemma traitBucket_addGene (d : PDist) (g : ℕ) (p : ℚ) (t : Bool) :
    traitBucket (d.addGene g p) t = traitBucket d t := by
  unfold PDist.addGene traitBucket
  split_ifs <;> rfl

lemma traitBucket_addTrait_other (d : PDist) (tadd tsel : Bool) (p : ℚ)
    (h : tsel ≠ tadd) :
    traitBucket (d.addTrait tadd p) tsel = traitBucket d tsel := by
  cases tadd <;> cases tsel <;> simp_all [PDist.addTrait, traitBucket]

lemma traitBucket_lookup_update (og tg ht : List String) (p : ℚ) (x : String) (t : Bool)
    (hx : t ≠ decide (x ∈ ht)) :
    ∀ acc : List (String × PDist),
      traitBucket (lookupDist (update acc og tg ht p) x) t =
        traitBucket (lookupDist acc x) t := by
  intro acc
  induction acc with
  | nil => rfl
  | cons e rest ih =>
    simp only [update, List.map_cons] at ih ⊢
    by_cases h : e.1 = x
    · simp only [lookupDist, h, if_true, ite_true]
      rw [traitBucket_addTrait_other _ _ _ _ hx, traitBucket_addGene]
    · simp only [lookupDist, h, if_false, ite_false]
      exact ih

lemma traitBucket_lookup_init (people : List Person) (x : String) (t : Bool) :
    traitBucket (lookupDist (initProbabilities people) x) t = 0 := by
  induction people with
  | nil => cases t <;> rfl
  | cons q rest ih =>
    simp only [initProbabilities, List.map_cons, lookupDist] at ih ⊢
    by_cases h : q.name = x
    · rw [if_pos h]
      cases t <;> rfl
    · rw [if_neg h]
      exact ih

lemma foldl_inv {α β : Type} (P : β → Prop) (f : β → α → β) :
    ∀ (l : List α) (init : β), P init → (∀ acc a, P acc → P (f acc a)) →
      P (l.foldl f init) := by
  intro l
  induction l with
  | nil => intro init h _; exact h
  | cons a rest ih =>
    intro init h hstep
    exact ih (f init a) (hstep init a h) hstep

lemma evidence_consistent {people : List Person} {ht : List String} {q : Person} {b : Bool}
    (hfe : fails_evidence people ht = false) (hq : q ∈ people) (htr : q.trait = some b) :
    decide (q.name ∈ ht) = b := by
  unfold fails_evidence at hfe
  rw [List.any_eq_false] at hfe
  have hq2 := hfe q hq
  rw [htr] at hq2
  rw [Bool.not_eq_true] at hq2
  simp only [bne_eq_false_iff_eq] at hq2
  exact hq2.symm

/-- C6: the evidence filter excludes, before any probability is computed,
every trait subset whose membership disagrees with an observed trait; and
consequently the accumulated bucket for the contradicting trait value of an
observed person is exactly 0 after the full accumulation loop. -/
theorem evidence_filtering :
    ∀ (people : List Person) (ht : List String) (q : Person) (b : Bool),
      (fails_evidence people ht = false → q ∈ people → q.trait = some b →
        decide (q.name ∈ ht) = b) ∧
      (q ∈ people → q.trait = some b →
        traitBucket (lookupDist (accumulate PROBS people) q.name) (!b) = 0) := by
  intro people ht q b
  refine ⟨fun hfe hq htr => evidence_consistent hfe hq htr, fun hq htr => ?_⟩
  unfold accumulate
  apply foldl_inv (fun acc => traitBucket (lookupDist acc q.name) (!b) = 0)
  · exact traitBucket_lookup_init people q.name (!b)
  · intro acc ht2 hacc
    by_cases hfe : fails_evidence people ht2 = true
    · rw [if_pos hfe]
      exact hacc
    · rw [if_neg hfe]
      have hfe2 : fails_evidence people ht2 = false := by
        simpa using hfe
      have hx : (!b) ≠ decide (q.name ∈ ht2) := by
        rw [evidence_consistent hfe2 hq htr]
        cases b <;> simp
      apply foldl_inv (fun acc2 => traitBucket (lookupDist acc2 q.name) (!b) = 0) _ _ _ hacc
      intro acc2 og2 hacc2
      apply foldl_inv (fun acc3 => traitBucket (lookupDist acc3 q.name) (!b) = 0) _ _ _ hacc2
      intro acc3 tg2 hacc3
      exact (traitBucket_lookup_update _ _ _ _ _ _ hx acc3).trans hacc3

/-- Witness for C6: for a one-person population with observed trait true,
the surviving subset ["a"] contains the person, and the accumulated
trait-false bucket is 0. -/
theorem evidence_filtering_witness :
    decide (("a" : String) ∈ (["a"] : List String)) = true ∧
    traitBucket
      (lookupDist (accumulate PROBS [⟨"a", none, none, some true⟩]) "a") (!true) = 0 := by
  have h := evidence_filtering [⟨"a", none, none, some true⟩] ["a"]
    ⟨"a", none, none, some true⟩ true
  exact ⟨h.1 rfl (List.mem_singleton.2 rfl) rfl, h.2 (List.mem_singleton.2 rfl) rfl⟩

lemma powerset_perm_sublists (l : List String) : List.Perm (powerset l) l.sublists' := by
  unfold powerset
  exact List.range_bind_sublistsLen_perm l

lemma mem_powerset_iff_sublist (l s : List String) : s ∈ powerset l ↔ s.Sublist l :=
  ((powerset_perm_sublists l).mem_iff).trans List.mem_sublists'

/-- C7: `powerset` returns all 2^n subsets (as a duplicate-free list of
exactly the sublists whenever the population is duplicate-free), and the
nested enumeration — `one_gene` over all subsets, `two_genes` over all
subsets of the set difference — yields exactly the pairs of disjoint
subsets of the population, with empty intersection for each pair. -/
theorem powerset_partition :
    ∀ l : List String,
      (powerset l).length = 2 ^ l.length ∧
      (∀ s : List String, s ∈ powerset l ↔ s.Sublist l) ∧
      (l.Nodup → (powerset l).Nodup) ∧
      (∀ og tg : List String, og ∈ powerset l → tg ∈ powerset (setDiff l og) →
        ∀ x, x ∈ og → x ∉ tg) ∧
      (∀ og tg : List String, og.Sublist l → tg.Sublist l → (∀ x ∈ tg, x ∉ og) →
        og ∈ powerset l ∧ tg ∈ powerset (setDiff l og)) := by
  intro l
  refine ⟨?_, mem_powerset_iff_sublist l, ?_, ?_, ?_⟩
  · rw [(powerset_perm_sublists l).length_eq, List.length_sublists']
  · intro h
    exact ((powerset_perm_sublists l).nodup_iff).2 (List.nodup_sublists'.2 h)
  · intro og tg hog htg x hxog hxtg
    have h1 : tg.Sublist (setDiff l og) := (mem_powerset_iff_sublist _ tg).1 htg
    have h2 : x ∈ List.filter (fun n => decide (n ∉ og)) l := h1.subset hxtg
    have h3 := (List.mem_filter.1 h2).2
    simp only [decide_eq_true_eq] at h3
    exact h3 hxog
  · intro og tg hog htg hdisj
    refine ⟨(mem_powerset_iff_sublist l og).2 hog, (mem_powerset_iff_sublist _ tg).2 ?_⟩
    show tg.Sublist (setDiff l og)
    unfold setDiff
    have heq : List.filter (fun n => decide (n ∉ og)) tg = tg :=
      List.filter_eq_self.2 fun a ha => by simpa using hdisj a ha
    have hsub : List.Sublist (List.filter (fun n => decide (n ∉ og)) tg)
        (List.filter (fun n => decide (n ∉ og)) l) := htg.filter _
    rw [heq] at hsub
    exact hsub

/-- Witness for C7: in the population ["a","b"], the disjoint pair
(["a"], ["b"]) is enumerated, and its members do not meet. -/
theorem powerset_partition_witness :
    ["a"] ∈ powerset ["a", "b"] ∧ ["b"] ∈ powerset (setDiff ["a", "b"] ["a"]) ∧
    ("a" : String) ∉ (["b"] : List String) := by
  have h := powerset_partition ["a", "b"]
  obtain ⟨h1, h2⟩ := h.2.2.2.2 ["a"] ["b"] (by decide) (by decide) (by decide)
  exact ⟨h1, h2, h.2.2.2.1 ["a"] ["b"] h1 h2 "a" (by decide)⟩

/-- C10: the founder prior is used exactly when both parents are absent;
otherwise the transmission branch is taken, where an absent (`None`) parent
gets gene count 0 from `get_gene_count` and hence pass probability equal to
the mutation rate. -/
theorem one_parent_transmission :
    ∀ (one_gene two_genes : List String) (q : Person) (g : ℕ),
      (q.mother = none ∧ q.father = none →
        get_gene_probability PROBS q one_gene two_genes g = geneTable PROBS g) ∧
      (¬(q.mother = none ∧ q.father = none) →
        get_gene_probability PROBS q one_gene two_genes g =
          childGeneProbability
            (get_pass_probability PROBS (get_gene_count q.mother one_gene two_genes))
            (get_pass_probability PROBS (get_gene_count q.father one_gene two_genes))
            g) ∧
      get_gene_count none one_gene two_genes = 0 ∧
      (q.father = none →
        get_pass_probability PROBS (get_gene_count q.father one_gene two_genes) =
          PROBS.mutation) := by
  intro og tg q g
  refine ⟨fun h => ?_, fun h => ?_, rfl, fun h => ?_⟩
  · simp only [get_gene_probability, if_pos h]
  · simp only [get_gene_probability, if_neg h]
  · rw [h]
    rfl

/-- Witness for C10: a person with a mother but no father takes the
transmission branch, with the absent father contributing pass probability
equal to the mutation rate. -/
theorem one_parent_transmission_witness :
    get_gene_probability PROBS ⟨"kid", some "mom", none, none⟩ ["mom"] [] 1 =
      childGeneProbability
        (get_pass_probability PROBS (get_gene_count (some "mom") ["mom"] []))
        (get_pass_probability PROBS (get_gene_count none ["mom"] [])) 1 ∧
    get_pass_probability PROBS (get_gene_count (none : Option String) ["mom"] []) =
      PROBS.mutation := by
  have h := one_parent_transmission ["mom"] [] ⟨"kid", some "mom", none, none⟩ 1
  exact ⟨h.2.1 (by simp), h.2.2.2 rfl⟩

end Heredity
